import Mathlib

/-!
# smallshell: the command dispatcher and its context

A shallow embedding of `shell.go` (package main) and `api/utils.go` of
duoflow/smallshell, together with the few Go standard-library functions they
call (`strings.TrimSpace`, `regexp.FindAllString`, `context.WithValue`,
`Context.Value`, `errors.New`).

Conventions.
* A Go `string` is a Lean `String`: the line protocol is UTF-8 text, so a line
  is a sequence of Unicode code points.
* A Go `context.Context` interface value is `Context = Option Ctx`; `none` is
  the nil interface.
* An `api.Command` interface value is a reference `Command`; what its method
  `Exec` does is not part of the repository sources and is a parameter
  (`ExecFn`) of everything that calls it.  `Exec` may have effects; they are
  made explicit as a transformation of a world `σ` of arbitrary type.
* A Go panic is `Except.error`.
-/

namespace Smallshell

/-! ## Standard library: unicode, strings, regexp -/

/-- Go `unicode.IsSpace`: for Latin-1 the eight characters
`\t \n \v \f \r`, space, U+0085, U+00A0; above Latin-1 the `White_Space`
table (U+1680, U+2000..U+200A, U+2028, U+2029, U+202F, U+205F, U+3000). -/
def IsSpace (r : Char) : Bool :=
  let n := r.toNat
  if n ≤ 0xFF then
    n == 0x09 || n == 0x0A || n == 0x0B || n == 0x0C || n == 0x0D || n == 0x20
      || n == 0x85 || n == 0xA0
  else
    n == 0x1680 || (0x2000 ≤ n && n ≤ 0x200A) || n == 0x2028 || n == 0x2029
      || n == 0x202F || n == 0x205F || n == 0x3000

/-- Go `strings.TrimSpace`: the string without its leading and trailing
white space, as defined by `unicode.IsSpace`. -/
def TrimSpace (s : String) : String :=
  String.mk ((s.data.dropWhile IsSpace).rdropWhile IsSpace)

/-- The Perl character class `\s` of Go's `regexp/syntax`: exactly
`[\t\n\f\r ]` (the vertical tab U+000B is not in it). -/
def perlSpace (r : Char) : Bool :=
  let n := r.toNat
  n == 0x09 || n == 0x0A || n == 0x0C || n == 0x0D || n == 0x20

/-- The negated class `\S`. -/
def perlNotSpace (r : Char) : Bool := !perlSpace r

/-- The scanner behind `FindAllString` for a regexp `C+` (one or more
characters of the class `cls`): `cur` holds, reversed, the characters of the
match in progress.  A match starts at the leftmost character of the class, is
greedy, and the search resumes right after it. -/
def findAllRuns (cls : Char → Bool) : List Char → List Char → List String
  | [], cur => if cur.isEmpty then [] else [String.mk cur.reverse]
  | c :: cs, cur =>
    if cls c then findAllRuns cls cs (c :: cur)
    else if cur.isEmpty then findAllRuns cls cs []
    else String.mk cur.reverse :: findAllRuns cls cs []

/-- Go `re.FindAllString(s, -1)` for a regexp `re = C+`, given by its class:
all successive non-overlapping matches.  Go returns the nil slice when there
is no match; the nil slice is the empty list. -/
def FindAllString (re : Char → Bool) (s : String) : List String :=
  findAllRuns re s.data []

/-- The package variable `reCmd = regexp.MustCompile("\\S+")`. -/
def reCmd : Char → Bool := perlNotSpace

/-! ## Standard library: errors and context -/

/-- A Go `error` value, identified with its message. -/
structure GoError where
  msg : String
deriving DecidableEq, Repr

/-- Go `errors.New`. -/
def errorsNew (text : String) : GoError := { msg := text }

/-- A value of interface type `api.Command`: a reference to the object that
implements `Exec`. -/
structure Command where
  ref : Nat
deriving DecidableEq, Repr

/-- A Go `map[string]api.Command`, as its entries.  `List.lookup` reads it and
`mapSet` writes it. -/
abbrev CommandMap := List (String × Command)

/-- Go `m[k] = v`. -/
def mapSet (m : CommandMap) (k : String) (v : Command) : CommandMap :=
  (k, v) :: m.filter (fun e => e.1 != k)

/-- A comparable Go value used as a context key: a string, or a value of any
other type (never equal to a string). -/
inductive Key where
  | str (s : String)
  | other (id : Nat)
deriving DecidableEq, Repr

/-- A Go value of type `any` stored in a context: nil, a `string`, an
`*os.File`, a `map[string]api.Command`, or a value of some other type. -/
inductive Any where
  | nil
  | str (s : String)
  | file (fd : Nat)
  | commands (m : CommandMap)
  | other (id : Nat)
deriving DecidableEq, Repr

/-- A non-nil `context.Context` built by the `context` package:
`context.Background()`, `context.WithCancel(parent)` and
`context.WithValue(parent, key, val)`.  For `Value`, `withCancel` stands for
every layer that adds no binding (`WithCancel`, `WithDeadline`,
`WithTimeout`). -/
inductive Ctx where
  | background
  | withCancel (parent : Ctx)
  | withValue (parent : Ctx) (key : Key) (val : Any)
deriving DecidableEq, Repr

/-- A Go `context.Context` interface value; `none` is nil. -/
abbrev Context := Option Ctx

/-- Go `ctx.Value(key)`: the value of the most recent binding of `key`, walking
from the newest binding to the oldest; nil when there is none. -/
def Ctx.Value : Ctx → Key → Any
  | .background, _ => Any.nil
  | .withCancel parent, key => parent.Value key
  | .withValue parent k val, key => if k = key then val else parent.Value key

/-- Go `context.WithValue(parent, key, val)`; it panics on a nil parent. -/
def WithValue (parent : Context) (key : Key) (val : Any) : Except String Context :=
  match parent with
  | none => Except.error "cannot create context from nil parent"
  | some p => Except.ok (some (Ctx.withValue p key val))

/-! ## api/utils.go -/

/-- The constant `api.PluginsDir`. -/
def PluginsDir : String := "../plugins"

/-- The constant `api.DefaultPrompt`. -/
def DefaultPrompt : String := "/>"

/-- The function `api.GetPrompt`. -/
def GetPrompt (ctx : Context) : String :=
  match ctx with
  | none => DefaultPrompt
  | some c =>
    let promptVal := c.Value (Key.str "shell.prompt")
    if promptVal ≠ Any.nil then
      match promptVal with
      | Any.str p => p
      | _ => DefaultPrompt
    else DefaultPrompt

/-! ## shell.go -/

/-- What a call returning `(context.Context, error)` leaves behind: the two
results and the world after the call. -/
structure Outcome (σ : Type) where
  ctx : Context
  err : Option GoError
  world : σ
deriving DecidableEq, Repr

/-- The method `Exec(ctx, args) (context.Context, error)` of the interface
`api.Command`, for every command reference.  The command implementations are
not part of the sources; the method is a parameter. -/
abbrev ExecFn (σ : Type) := Command → Context → List String → σ → Outcome σ

/-- The struct `Goshell`. -/
structure Goshell where
  ctx : Context
  pluginsDir : String
  commands : CommandMap
deriving DecidableEq, Repr

/-- The function `New`. -/
def New : Goshell := { ctx := none, pluginsDir := PluginsDir, commands := [] }

/-- The method `Goshell.loadCommands`; `registry` is what
`cmd.Commands.Registry()` returns (package `cmd` is not part of the sources),
as the entries the `range` loop visits.  The result is the shell after the
call and the returned error. -/
def loadCommands (registry : CommandMap) (shell : Goshell) :
    Except String (Goshell × Option GoError) :=
  let commands := registry.foldl (fun m e => mapSet m e.1 e.2) shell.commands
  match WithValue shell.ctx (Key.str "shell.commands") (Any.commands commands) with
  | Except.error e => Except.error e
  | Except.ok ctx => Except.ok ({ shell with ctx := ctx, commands := commands }, none)

/-- The method `Goshell.Init` (`printSplash` only writes the banner). -/
def Init (registry : CommandMap) (shell : Goshell) (ctx : Context) :
    Except String (Goshell × Option GoError) :=
  loadCommands registry { shell with ctx := ctx }

/-- The method `Goshell.handle`. -/
def handle {σ : Type} (Exec : ExecFn σ) (shell : Goshell) (ctx : Context)
    (cmdLine : String) (w : σ) : Outcome σ :=
  let line := TrimSpace cmdLine
  if line = "" then { ctx := ctx, err := none, world := w }
  else
    let args := FindAllString reCmd line
    match args with
    | cmdName :: _ =>
      match shell.commands.lookup cmdName with
      | none =>
        { ctx := ctx, err := some (errorsNew ("command not found: " ++ cmdName)), world := w }
      | some cmd => Exec cmd ctx args w
    | [] =>
      { ctx := ctx, err := some (errorsNew ("unable to parse command line: " ++ line)),
        world := w }

/-- One write of the shell loop to standard output: the prompt
(`fmt.Printf("%s ", ...)`), the read fault (`fmt.Println(err)`), or the error
of a dispatch (`fmt.Printf("%v\n", err)`). -/
inductive Event where
  | prompt (p : String)
  | readFault (e : GoError)
  | handleErr (e : GoError)
deriving DecidableEq, Repr

/-- The text an event puts on standard output. -/
def Event.text : Event → String
  | .prompt p => p ++ " "
  | .readFault e => e.msg ++ "\n"
  | .handleErr e => e.msg ++ "\n"

/-- The variables of the shell loop: `loopCtx`, the world, and what the loop
itself has written so far. -/
structure LoopState (σ : Type) where
  loopCtx : Context
  world : σ
  out : List Event
deriving DecidableEq, Repr

/-- The goroutine of `main` (the shell loop).  The input stream is the list of
lines `lineReader.ReadString` returns without error, in order, followed by the
read fault `fault`; the loop returns at the fault.  The command table of
`shell` is read-only after initialisation. -/
def shellLoop {σ : Type} (Exec : ExecFn σ) (shell : Goshell) (fault : GoError) :
    List String → LoopState σ → LoopState σ
  | [], st =>
    { st with out := st.out ++ [Event.prompt (GetPrompt st.loopCtx), Event.readFault fault] }
  | line :: rest, st =>
    let out := st.out ++ [Event.prompt (GetPrompt st.loopCtx)]
    let r := handle Exec shell st.loopCtx line st.world
    let out := match r.err with
      | some err => out ++ [Event.handleErr err]
      | none => out
    shellLoop Exec shell fault rest { loopCtx := r.ctx, world := r.world, out := out }

/-- The context `main` builds before `Init`: a cancellable background context
with the prompt and the three standard streams bound. -/
def mainCtx : Ctx :=
  Ctx.withValue
    (Ctx.withValue
      (Ctx.withValue
        (Ctx.withValue (Ctx.withCancel Ctx.background)
          (Key.str "shell.prompt") (Any.str DefaultPrompt))
        (Key.str "shell.stdout") (Any.file 1))
      (Key.str "shell.stderr") (Any.file 2))
    (Key.str "shell.stdin") (Any.file 0)

/-- The function `main` up to the return of the shell loop: `New`, `Init`, then
the loop started on `shell.ctx`.  `Except.error` is a panic or `os.Exit(1)`;
the banner and the help hint are not recorded. -/
def main {σ : Type} (registry : CommandMap) (Exec : ExecFn σ) (fault : GoError)
    (lines : List String) (w : σ) : Except String (LoopState σ) :=
  match Init registry New (some mainCtx) with
  | Except.error e => Except.error e
  | Except.ok (_, some err) => Except.error ("Failed to initialize:" ++ err.msg)
  | Except.ok (shell, none) =>
    Except.ok (shellLoop Exec shell fault lines { loopCtx := shell.ctx, world := w, out := [] })

/-! ## Notions the specification uses -/

/-- The words of `s` delimited by the characters of `sep`: the non-empty
pieces between separators, in order. -/
def fieldsBy (sep : Char → Bool) (s : String) : List String :=
  ((s.data.splitOnP sep).filter (fun t => !t.isEmpty)).map String.mk

/-- The most recent binding of `key` in a context chain, if there is one. -/
def Ctx.mostRecent : Ctx → Key → Option Any
  | .background, _ => none
  | .withCancel parent, key => parent.mostRecent key
  | .withValue parent k val, key => if k = key then some val else parent.mostRecent key

/-- The state of the loop after dispatching `lines` one after the other, each
on the context and world the previous dispatch returned. -/
def dispatchAll {σ : Type} (Exec : ExecFn σ) (shell : Goshell) (lines : List String)
    (start : Context × σ) : Context × σ :=
  lines.foldl (fun s line =>
    let r := handle Exec shell s.1 line s.2
    (r.ctx, r.world)) start

/-- The prompts among the events of the loop, in order. -/
def prompts : List Event → List String
  | [] => []
  | Event.prompt p :: es => p :: prompts es
  | _ :: es => prompts es

/-- A command implementation that records its call (the command and its
argument vector) in the world and returns its context unchanged, except the
command with reference 0, which returns its context with `shell.prompt` bound
to its first argument (to "$" when it has none). -/
def recordExec : ExecFn (List (Command × List String)) :=
  fun cmd ctx args w =>
    match cmd.ref, ctx with
    | 0, some c =>
      { ctx := some (Ctx.withValue c (Key.str "shell.prompt") (Any.str (args.getD 1 "$"))),
        err := none, world := w ++ [(cmd, args)] }
    | _, _ => { ctx := ctx, err := none, world := w ++ [(cmd, args)] }

/-- A shell whose table holds `setprompt` (reference 0), `echo` (1) and
`help` (2). -/
def sampleShell : Goshell :=
  { ctx := some mainCtx, pluginsDir := PluginsDir,
    commands := [("setprompt", Command.mk 0), ("echo", Command.mk 1), ("help", Command.mk 2)] }

/-- The context of `main` with `shell.commands` rebound to a table that holds
only `echo`: what a command returns to publish a new registry snapshot. -/
def echoOnlyCtx : Ctx :=
  Ctx.withValue mainCtx (Key.str "shell.commands") (Any.commands [("echo", Command.mk 1)])

/-- The context of `main` with `shell.commands` rebound to an empty table. -/
def noCommandsCtx : Ctx :=
  Ctx.withValue mainCtx (Key.str "shell.commands") (Any.commands [])

/-! ## Lemmas on the standard-library functions -/

theorem perlSpace_IsSpace (c : Char) (h : perlSpace c = true) : IsSpace c = true := by
  unfold perlSpace at h
  unfold IsSpace
  generalize c.toNat = n at h ⊢
  simp only [Bool.or_eq_true, beq_iff_eq] at h
  rcases h with (((h | h) | h) | h) | h <;> subst h <;> decide

theorem IsSpace_false_perlNotSpace (c : Char) (h : IsSpace c = false) :
    perlNotSpace c = true := by
  unfold perlNotSpace
  cases hp : perlSpace c with
  | false => rfl
  | true => rw [perlSpace_IsSpace c hp] at h; cases h

theorem TrimSpace_eq_empty_iff (s : String) :
    TrimSpace s = "" ↔ ∀ c ∈ s.data, IsSpace c = true := by
  unfold TrimSpace
  rw [String.ext_iff]
  show List.rdropWhile IsSpace (List.dropWhile IsSpace s.data) = [] ↔ _
  rw [List.rdropWhile_eq_nil_iff]
  constructor
  · intro h
    have hnil : List.dropWhile IsSpace s.data = [] := by
      cases hd : List.dropWhile IsSpace s.data with
      | nil => rfl
      | cons a t =>
        have h1 : IsSpace a = true := h a (by rw [hd]; exact List.mem_cons_self a t)
        have h2 := List.head_dropWhile_not IsSpace s.data (by rw [hd]; exact List.cons_ne_nil a t)
        simp only [hd, List.head_cons] at h2
        rw [h1] at h2
        cases h2
    exact List.dropWhile_eq_nil_iff.mp hnil
  · intro h x hx
    exact h x ((List.dropWhile_sublist IsSpace).subset hx)

theorem TrimSpace_head (s : String) (h : TrimSpace s ≠ "") :
    ∃ c cs, (TrimSpace s).data = c :: cs ∧ IsSpace c = false := by
  have hne : (TrimSpace s).data ≠ [] := fun hd => h (String.ext_iff.mpr hd)
  have hpre : (TrimSpace s).data <+: List.dropWhile IsSpace s.data :=
    List.rdropWhile_prefix IsSpace _
  cases hd : (TrimSpace s).data with
  | nil => exact absurd hd hne
  | cons c cs =>
    refine ⟨c, cs, rfl, ?_⟩
    rw [hd] at hpre
    obtain ⟨t, ht⟩ := hpre
    have h2 := List.head_dropWhile_not IsSpace s.data (by rw [← ht]; simp)
    simp only [← ht, List.cons_append, List.head_cons] at h2
    exact h2

theorem findAllRuns_cur (cls : Char → Bool) (l cur : List Char) (hcur : cur ≠ []) :
    ∃ tok rest, findAllRuns cls l cur = tok :: rest ∧ tok ≠ "" := by
  induction l generalizing cur with
  | nil =>
    refine ⟨String.mk cur.reverse, [], ?_, ?_⟩
    · cases cur with
      | nil => exact absurd rfl hcur
      | cons a t => simp [findAllRuns]
    · intro h
      have := String.ext_iff.mp h
      simp at this
      exact hcur this
  | cons c cs ih =>
    by_cases hc : cls c = true
    · obtain ⟨tok, rest, h1, h2⟩ := ih (c :: cur) (List.cons_ne_nil c cur)
      exact ⟨tok, rest, by simp [findAllRuns, hc, h1], h2⟩
    · refine ⟨String.mk cur.reverse, findAllRuns cls cs [], ?_, ?_⟩
      · cases cur with
        | nil => exact absurd rfl hcur
        | cons a t => simp [findAllRuns, hc]
      · intro h
        have := String.ext_iff.mp h
        simp at this
        exact hcur this

theorem findAllRuns_eq_splitOnP (cls : Char → Bool) (l cur : List Char) :
    findAllRuns cls l cur =
      ((List.splitOnP.go (fun c => !cls c) l cur).filter (fun t => !t.isEmpty)).map String.mk := by
  induction l generalizing cur with
  | nil =>
    cases cur with
    | nil => simp [findAllRuns, List.splitOnP.go]
    | cons a t => simp [findAllRuns, List.splitOnP.go]
  | cons c cs ih =>
    by_cases hc : cls c = true
    · simp [findAllRuns, List.splitOnP.go, hc, ih]
    · cases cur with
      | nil => simp [findAllRuns, List.splitOnP.go, hc, ih]
      | cons a t => simp [findAllRuns, List.splitOnP.go, hc, ih]

theorem FindAllString_reCmd_eq_fieldsBy (s : String) :
    FindAllString reCmd s = fieldsBy perlSpace s := by
  unfold FindAllString fieldsBy List.splitOnP
  rw [findAllRuns_eq_splitOnP]
  have : (fun c => !reCmd c) = perlSpace := by
    funext c
    simp [reCmd, perlNotSpace]
  rw [this]

theorem FindAllString_TrimSpace (s : String) (h : TrimSpace s ≠ "") :
    ∃ tok rest, FindAllString reCmd (TrimSpace s) = tok :: rest ∧ tok ≠ "" := by
  obtain ⟨c, cs, hd, hc⟩ := TrimSpace_head s h
  unfold FindAllString
  rw [hd]
  have hcls : reCmd c = true := IsSpace_false_perlNotSpace c hc
  obtain ⟨tok, rest, h1, h2⟩ := findAllRuns_cur reCmd cs [c] (List.cons_ne_nil c [])
  exact ⟨tok, rest, by simp [findAllRuns, hcls, h1], h2⟩

theorem FindAllString_empty (re : Char → Bool) : FindAllString re "" = [] := by
  simp [FindAllString, findAllRuns]

theorem findAllRuns_mem (cls : Char → Bool) (l cur : List Char)
    (hcur : ∀ ch ∈ cur, cls ch = true) :
    ∀ t ∈ findAllRuns cls l cur, t ≠ "" ∧ ∀ ch ∈ t.data, cls ch = true := by
  induction l generalizing cur with
  | nil =>
    intro t ht
    cases cur with
    | nil => simp [findAllRuns] at ht
    | cons a r =>
      simp only [findAllRuns, List.isEmpty_cons, Bool.false_eq_true, if_false,
        List.mem_singleton] at ht
      subst ht
      refine ⟨fun h => ?_, fun ch hch => hcur ch (List.mem_reverse.mp hch)⟩
      have := String.ext_iff.mp h
      simp at this
  | cons c cs ih =>
    intro t ht
    by_cases hc : cls c = true
    · simp only [findAllRuns, hc, if_true] at ht
      refine ih (c :: cur) (fun ch hch => ?_) t ht
      rcases List.mem_cons.mp hch with h | h
      · rw [h]; exact hc
      · exact hcur ch h
    · cases cur with
      | nil =>
        simp only [findAllRuns, hc, List.isEmpty_nil, if_true, if_false] at ht
        exact ih [] (fun ch hch => absurd hch (List.not_mem_nil ch)) t ht
      | cons a r =>
        simp only [findAllRuns, hc, List.isEmpty_cons, Bool.false_eq_true, if_false,
          List.mem_cons] at ht
        rcases ht with ht | ht
        · subst ht
          refine ⟨fun h => ?_, fun ch hch => hcur ch (List.mem_reverse.mp hch)⟩
          have := String.ext_iff.mp h
          simp at this
        · exact ih [] (fun ch hch => absurd hch (List.not_mem_nil ch)) t ht

/-! ## Lemmas on `handle` and the loop -/

/-- The line is blank exactly when it has no token. -/
theorem FindAllString_eq_nil_iff (s : String) :
    FindAllString reCmd (TrimSpace s) = [] ↔ TrimSpace s = "" := by
  constructor
  · intro h
    by_contra hne
    obtain ⟨tok, rest, h1, _⟩ := FindAllString_TrimSpace s hne
    rw [h1] at h
    cases h
  · intro h
    rw [h, FindAllString_empty]

/-- What `handle` does on a blank line. -/
theorem handle_of_blank {σ : Type} (Exec : ExecFn σ) (shell : Goshell) (ctx : Context)
    (cmdLine : String) (w : σ) (h : TrimSpace cmdLine = "") :
    handle Exec shell ctx cmdLine w = { ctx := ctx, err := none, world := w } := by
  simp [handle, h]

/-- What `handle` does on a line with a first token. -/
theorem handle_of_tokens {σ : Type} (Exec : ExecFn σ) (shell : Goshell) (ctx : Context)
    (cmdLine : String) (w : σ) (tok : String) (rest : List String)
    (htok : FindAllString reCmd (TrimSpace cmdLine) = tok :: rest) :
    handle Exec shell ctx cmdLine w =
      match shell.commands.lookup tok with
      | none =>
        { ctx := ctx, err := some (errorsNew ("command not found: " ++ tok)), world := w }
      | some cmd => Exec cmd ctx (tok :: rest) w := by
  have hne : TrimSpace cmdLine ≠ "" := by
    intro h
    rw [(FindAllString_eq_nil_iff cmdLine).mpr h] at htok
    cases htok
  simp only [handle, hne, if_false, htok]

theorem prompts_append (a b : List Event) : prompts (a ++ b) = prompts a ++ prompts b := by
  induction a with
  | nil => rfl
  | cons e es ih => cases e <;> simp [prompts, ih]

theorem dispatchAll_cons {σ : Type} (Exec : ExecFn σ) (shell : Goshell) (line : String)
    (lines : List String) (s : Context × σ) :
    dispatchAll Exec shell (line :: lines) s =
      dispatchAll Exec shell lines
        ((handle Exec shell s.1 line s.2).ctx, (handle Exec shell s.1 line s.2).world) := rfl

/-- The loop from any state: its final context and world are the fold of
`handle`, it wrote one prompt before every read, each rendered from the state
of the fold at that point, and its last write is the read fault. -/
theorem shellLoop_spec {σ : Type} (Exec : ExecFn σ) (shell : Goshell) (fault : GoError)
    (lines : List String) (st : LoopState σ) :
    ((shellLoop Exec shell fault lines st).loopCtx, (shellLoop Exec shell fault lines st).world)
        = dispatchAll Exec shell lines (st.loopCtx, st.world)
      ∧ prompts (shellLoop Exec shell fault lines st).out
        = prompts st.out ++ (List.range (lines.length + 1)).map (fun k =>
            GetPrompt (dispatchAll Exec shell (lines.take k) (st.loopCtx, st.world)).1)
      ∧ (shellLoop Exec shell fault lines st).out.getLast? = some (Event.readFault fault) := by
  induction lines generalizing st with
  | nil =>
    refine ⟨rfl, ?_, ?_⟩
    · simp [shellLoop, prompts_append, prompts, dispatchAll]
    · simp [shellLoop]
  | cons line rest ih =>
    simp only [shellLoop]
    obtain ⟨h1, h2, h3⟩ := ih
      { loopCtx := (handle Exec shell st.loopCtx line st.world).ctx,
        world := (handle Exec shell st.loopCtx line st.world).world,
        out := match (handle Exec shell st.loopCtx line st.world).err with
          | some err => st.out ++ [Event.prompt (GetPrompt st.loopCtx)] ++ [Event.handleErr err]
          | none => st.out ++ [Event.prompt (GetPrompt st.loopCtx)] }
    refine ⟨?_, ?_, h3⟩
    · rw [h1, dispatchAll_cons]
    · rw [h2, List.length_cons, List.range_succ_eq_map (rest.length + 1), List.map_cons,
        List.map_map]
      have hout : prompts (match (handle Exec shell st.loopCtx line st.world).err with
          | some err => st.out ++ [Event.prompt (GetPrompt st.loopCtx)] ++ [Event.handleErr err]
          | none => st.out ++ [Event.prompt (GetPrompt st.loopCtx)])
          = prompts st.out ++ [GetPrompt st.loopCtx] := by
        cases (handle Exec shell st.loopCtx line st.world).err <;>
          simp [prompts_append, prompts]
      rw [hout]
      simp [dispatchAll, Function.comp_def]

theorem Init_main (registry : CommandMap) :
    ∃ shell, Init registry New (some mainCtx) = Except.ok (shell, none)
      ∧ shell.commands = registry.foldl (fun m e => mapSet m e.1 e.2) []
      ∧ shell.ctx = some (Ctx.withValue mainCtx (Key.str "shell.commands")
          (Any.commands shell.commands)) :=
  ⟨_, rfl, rfl, rfl⟩

/-! ## The claims -/

/-- C1: for every context and every line whose first token is not a key of the
shell's command table, `handle` returns the context it was given, unchanged,
with the error "command not found: <token>", and leaves the world as it was
(the right-hand side does not mention `Exec`: no command is invoked). -/
theorem handle_command_not_found {σ : Type} (Exec : ExecFn σ) (shell : Goshell)
    (ctx : Context) (cmdLine : String) (w : σ) (tok : String)
    (htok : (FindAllString reCmd (TrimSpace cmdLine)).head? = some tok)
    (hmiss : shell.commands.lookup tok = none) :
    handle Exec shell ctx cmdLine w =
      { ctx := ctx, err := some (errorsNew ("command not found: " ++ tok)), world := w } := by
  cases hargs : FindAllString reCmd (TrimSpace cmdLine) with
  | nil => rw [hargs] at htok; cases htok
  | cons a rest =>
    rw [hargs] at htok
    cases htok
    rw [handle_of_tokens Exec shell ctx cmdLine w tok rest hargs, hmiss]

/-- C1, witness: with an empty command table the line "anything\n" yields the
error naming "anything", the unchanged context and an empty call record. -/
theorem handle_command_not_found_witness :
    (FindAllString reCmd (TrimSpace "anything\n")).head? = some "anything"
      ∧ New.commands.lookup "anything" = none
      ∧ handle recordExec New (some mainCtx) "anything\n" [] =
        { ctx := some mainCtx, err := some (errorsNew "command not found: anything"),
          world := [] } :=
  ⟨by decide, by decide,
    handle_command_not_found recordExec New (some mainCtx) "anything\n" [] "anything"
      (by decide) (by decide)⟩

/-- C2: for every context and every line that is empty or consists only of
white space, `handle` returns the input context unchanged and a nil error, and
leaves the world as it was (no command is invoked). -/
theorem handle_blank_line {σ : Type} (Exec : ExecFn σ) (shell : Goshell) (ctx : Context)
    (cmdLine : String) (w : σ) (hblank : ∀ c ∈ cmdLine.data, IsSpace c = true) :
    handle Exec shell ctx cmdLine w = { ctx := ctx, err := none, world := w } :=
  handle_of_blank Exec shell ctx cmdLine w ((TrimSpace_eq_empty_iff cmdLine).mpr hblank)

/-- C2, witness: a line of spaces, a tab and a newline, and the empty line. -/
theorem handle_blank_line_witness :
    (∀ c ∈ " \t  \n".data, IsSpace c = true)
      ∧ handle recordExec sampleShell (some mainCtx) " \t  \n" [] =
        { ctx := some mainCtx, err := none, world := [] }
      ∧ handle recordExec sampleShell (some mainCtx) "" [] =
        { ctx := some mainCtx, err := none, world := [] } :=
  ⟨by decide,
    handle_blank_line recordExec sampleShell (some mainCtx) " \t  \n" [] (by decide),
    handle_blank_line recordExec sampleShell (some mainCtx) "" [] (by decide)⟩

/-- C3 as stated fails: on the line "echo a\vb\n" (a vertical tab inside the
second word) `echo` is called with the two arguments "echo" and "a\vb", while
the words delimited by the white space that trimming removes are "echo", "a",
"b"; the same happens with a no-break space U+00A0. -/
theorem handle_args_not_trim_space_fields :
    (handle recordExec sampleShell (some mainCtx) "echo a\x0bb\n" []).world
        = [(Command.mk 1, ["echo", "a\x0bb"])]
      ∧ fieldsBy IsSpace (TrimSpace "echo a\x0bb\n") = ["echo", "a", "b"]
      ∧ (handle recordExec sampleShell (some mainCtx) "echo a\x0bb\n" []).world
        ≠ [(Command.mk 1, fieldsBy IsSpace (TrimSpace "echo a\x0bb\n"))]
      ∧ (handle recordExec sampleShell (some mainCtx) "echo a\u00a0b\n" []).world
        = [(Command.mk 1, ["echo", "a\u00a0b"])]
      ∧ fieldsBy IsSpace (TrimSpace "echo a\u00a0b\n") = ["echo", "a", "b"] := by
  decide

/-- C3 (amended): for every line that resolves to a registered command, the
argument vector `handle` passes to `Exec` is the list of words of the trimmed
line delimited by runs of the five characters tab, newline, form feed,
carriage return and space (the complement of the class `\S`), in order; no
word is empty or holds one of those five characters, and element 0 is the name
under which the command was looked up. -/
theorem handle_args_are_perl_space_fields {σ : Type} (Exec : ExecFn σ) (shell : Goshell)
    (ctx : Context) (cmdLine : String) (w : σ) (name : String) (rest : List String)
    (cmd : Command)
    (hfields : fieldsBy perlSpace (TrimSpace cmdLine) = name :: rest)
    (hcmd : shell.commands.lookup name = some cmd) :
    handle Exec shell ctx cmdLine w = Exec cmd ctx (name :: rest) w
      ∧ ∀ t ∈ name :: rest, t ≠ "" ∧ ∀ ch ∈ t.data, perlSpace ch = false := by
  rw [← FindAllString_reCmd_eq_fieldsBy] at hfields
  refine ⟨?_, ?_⟩
  · rw [handle_of_tokens Exec shell ctx cmdLine w name rest hfields, hcmd]
  · intro t ht
    rw [← hfields] at ht
    have h := findAllRuns_mem reCmd (TrimSpace cmdLine).data []
      (fun ch hch => absurd hch (List.not_mem_nil ch)) t ht
    refine ⟨h.1, fun ch hch => ?_⟩
    have := h.2 ch hch
    simpa [reCmd, perlNotSpace] using this

/-- C3, witness: the line "  echo hello world  \n" calls `echo` with
"echo", "hello", "world". -/
theorem handle_args_are_perl_space_fields_witness :
    fieldsBy perlSpace (TrimSpace "  echo hello world  \n") = ["echo", "hello", "world"]
      ∧ sampleShell.commands.lookup "echo" = some (Command.mk 1)
      ∧ handle recordExec sampleShell (some mainCtx) "  echo hello world  \n" []
        = recordExec (Command.mk 1) (some mainCtx) ["echo", "hello", "world"] [] :=
  ⟨by decide, by decide,
    (handle_args_are_perl_space_fields recordExec sampleShell (some mainCtx)
      "  echo hello world  \n" [] "echo" ["hello", "world"] (Command.mk 1)
      (by decide) (by decide)).1⟩

/-- C4: for every context and every line whose first token names a registered
command, the outcome of `handle` (context, error and world) is exactly the
outcome of that command's `Exec` on the same context and the token vector. -/
theorem handle_returns_exec_outcome {σ : Type} (Exec : ExecFn σ) (shell : Goshell)
    (ctx : Context) (cmdLine : String) (w : σ) (tok : String) (rest : List String)
    (cmd : Command)
    (htok : FindAllString reCmd (TrimSpace cmdLine) = tok :: rest)
    (hcmd : shell.commands.lookup tok = some cmd) :
    handle Exec shell ctx cmdLine w
      = Exec cmd ctx (FindAllString reCmd (TrimSpace cmdLine)) w := by
  rw [handle_of_tokens Exec shell ctx cmdLine w tok rest htok, hcmd, htok]

/-- C4, witness: "setprompt >\n" returns what `setprompt` returns, a context
with a new prompt binding. -/
theorem handle_returns_exec_outcome_witness :
    handle recordExec sampleShell (some mainCtx) "setprompt >\n" []
      = recordExec (Command.mk 0) (some mainCtx)
          (FindAllString reCmd (TrimSpace "setprompt >\n")) [] :=
  handle_returns_exec_outcome recordExec sampleShell (some mainCtx) "setprompt >\n" []
    "setprompt" [">"] (Command.mk 0) (by decide) (by decide)

/-- C5 as stated fails: `handle` does not read the `shell.commands` binding of
the context.  A context that binds `shell.commands` to a table with `echo`
still gives command-not-found when the shell's own table is empty (and `echo`
is never called); a context whose binding is an empty table still runs `echo`
when the shell's own table has it. -/
theorem handle_ignores_context_commands :
    echoOnlyCtx.Value (Key.str "shell.commands") = Any.commands [("echo", Command.mk 1)]
      ∧ handle recordExec New (some echoOnlyCtx) "echo hi\n" []
        = { ctx := some echoOnlyCtx, err := some (errorsNew "command not found: echo"),
            world := [] }
      ∧ noCommandsCtx.Value (Key.str "shell.commands") = Any.commands []
      ∧ handle recordExec sampleShell (some noCommandsCtx) "echo hi\n" []
        = { ctx := some noCommandsCtx, err := none,
            world := [(Command.mk 1, ["echo", "hi"])] } := by
  decide

/-- C5 (amended): `handle` resolves the command name against the `commands`
field of the shell struct, whatever context it is given: for every context,
when the field maps the line's first token to a command, `handle` calls that
command, and when the field lacks the first token `handle` reports
command-not-found.  On the context `loadCommands` stores, the `shell.commands`
binding is that same table. -/
theorem handle_resolves_in_shell_commands :
    (∀ (σ : Type) (Exec : ExecFn σ) (shell : Goshell) (ctx : Context) (cmdLine : String)
        (w : σ) (tok : String) (rest : List String),
        FindAllString reCmd (TrimSpace cmdLine) = tok :: rest →
          (∀ cmd, shell.commands.lookup tok = some cmd →
            handle Exec shell ctx cmdLine w = Exec cmd ctx (tok :: rest) w)
          ∧ (shell.commands.lookup tok = none →
            handle Exec shell ctx cmdLine w =
              { ctx := ctx, err := some (errorsNew ("command not found: " ++ tok)),
                world := w }))
      ∧ (∀ (registry : CommandMap) (shell shell1 : Goshell) (err : Option GoError),
          loadCommands registry shell = Except.ok (shell1, err) →
            ∃ c, shell1.ctx = some c
              ∧ c.Value (Key.str "shell.commands") = Any.commands shell1.commands) := by
  refine ⟨?_, ?_⟩
  · intro σ Exec shell ctx cmdLine w tok rest htok
    refine ⟨fun cmd hcmd => ?_, fun hmiss => ?_⟩
    · rw [handle_of_tokens Exec shell ctx cmdLine w tok rest htok, hcmd]
    · rw [handle_of_tokens Exec shell ctx cmdLine w tok rest htok, hmiss]
  · intro registry shell shell1 err h
    unfold loadCommands WithValue at h
    cases hctx : shell.ctx with
    | none => simp [hctx] at h
    | some c0 =>
      simp only [hctx, Except.ok.injEq, Prod.mk.injEq] at h
      obtain ⟨h1, _⟩ := h
      subst h1
      exact ⟨_, rfl, by simp [Ctx.Value]⟩

/-- C6: `GetPrompt` returns the default prompt "/>" on the nil context and on a
context without a `shell.prompt` binding; on a context whose most recent
`shell.prompt` binding holds a string it returns that string, and when the
most recent binding holds anything else it returns "/>" whatever older
bindings hold; bindings of other keys and cancellation layers are skipped. -/
theorem GetPrompt_most_recent_string :
    DefaultPrompt = "/>"
      ∧ GetPrompt none = DefaultPrompt
      ∧ (∀ c : Ctx, GetPrompt (some c) =
          match c.mostRecent (Key.str "shell.prompt") with
          | some (Any.str p) => p
          | _ => DefaultPrompt)
      ∧ (∀ (parent : Ctx) (p : String),
          GetPrompt (some (Ctx.withValue parent (Key.str "shell.prompt") (Any.str p))) = p)
      ∧ (∀ (parent : Ctx) (v : Any), (∀ p, v ≠ Any.str p) →
          GetPrompt (some (Ctx.withValue parent (Key.str "shell.prompt") v)) = DefaultPrompt)
      ∧ (∀ c : Ctx, c.mostRecent (Key.str "shell.prompt") = none →
          GetPrompt (some c) = DefaultPrompt) := by
  have hval : ∀ c : Ctx, c.Value (Key.str "shell.prompt") =
      (c.mostRecent (Key.str "shell.prompt")).getD Any.nil := by
    intro c
    induction c with
    | background => rfl
    | withCancel parent ih => simpa [Ctx.Value, Ctx.mostRecent] using ih
    | withValue parent k v ih =>
      by_cases hk : k = Key.str "shell.prompt"
      · simp [Ctx.Value, Ctx.mostRecent, hk]
      · simp [Ctx.Value, Ctx.mostRecent, hk, ih]
  have hall : ∀ c : Ctx, GetPrompt (some c) =
      match c.mostRecent (Key.str "shell.prompt") with
      | some (Any.str p) => p
      | _ => DefaultPrompt := by
    intro c
    simp only [GetPrompt, hval c]
    cases hm : c.mostRecent (Key.str "shell.prompt") with
    | none => rfl
    | some v => cases v <;> rfl
  refine ⟨rfl, rfl, hall, ?_, ?_, ?_⟩
  · intro parent p
    simp [GetPrompt, Ctx.Value]
  · intro parent v hv
    cases v with
    | str p => exact absurd rfl (hv p)
    | nil => simp [GetPrompt, Ctx.Value]
    | file fd => simp [GetPrompt, Ctx.Value]
    | commands m => simp [GetPrompt, Ctx.Value]
    | other id => simp [GetPrompt, Ctx.Value]
  · intro c hc
    rw [hall c, hc]

/-- C6, witness: a newer non-string binding hides an older string binding;
a newer string binding wins over an older one; the context of `main`
renders "/>". -/
theorem GetPrompt_most_recent_string_witness :
    GetPrompt (some (Ctx.withValue
        (Ctx.withValue Ctx.background (Key.str "shell.prompt") (Any.str "old> "))
        (Key.str "shell.prompt") (Any.other 7))) = "/>"
      ∧ GetPrompt (some (Ctx.withValue
        (Ctx.withValue Ctx.background (Key.str "shell.prompt") (Any.str "old> "))
        (Key.str "shell.prompt") (Any.str "new> "))) = "new> "
      ∧ GetPrompt (some echoOnlyCtx) = "/>"
      ∧ GetPrompt (some (Ctx.withCancel Ctx.background)) = "/>" :=
  ⟨GetPrompt_most_recent_string.2.2.2.2.1 _ (Any.other 7) (by intro p h; cases h),
    GetPrompt_most_recent_string.2.2.2.1 _ "new> ",
    by decide,
    GetPrompt_most_recent_string.2.2.2.2.2 _ (by decide)⟩

/-- C7: context chaining.  If a first `handle` call resolves to a command that
returns its input context extended with `shell.prompt` bound to the string
`p`, then for every second line (blank, unresolvable, or resolving to a
command that returns its input context unchanged) `handle` on the first call's
context returns a context on which `GetPrompt` is `p`. -/
theorem prompt_binding_survives_next_dispatch {σ : Type} (Exec : ExecFn σ) (shell : Goshell)
    (c : Ctx) (line1 line2 : String) (w w1 : σ) (p : String) (tok1 : String)
    (rest1 : List String) (cmd1 : Command) (e1 : Option GoError)
    (htok1 : FindAllString reCmd (TrimSpace line1) = tok1 :: rest1)
    (hcmd1 : shell.commands.lookup tok1 = some cmd1)
    (hexec1 : Exec cmd1 (some c) (tok1 :: rest1) w =
      { ctx := some (Ctx.withValue c (Key.str "shell.prompt") (Any.str p)),
        err := e1, world := w1 })
    (hkeep : ∀ tok rest cmd, FindAllString reCmd (TrimSpace line2) = tok :: rest →
      shell.commands.lookup tok = some cmd →
      (Exec cmd (some (Ctx.withValue c (Key.str "shell.prompt") (Any.str p)))
        (tok :: rest) w1).ctx
        = some (Ctx.withValue c (Key.str "shell.prompt") (Any.str p))) :
    (handle Exec shell (some c) line1 w).ctx
        = some (Ctx.withValue c (Key.str "shell.prompt") (Any.str p))
      ∧ GetPrompt (handle Exec shell (handle Exec shell (some c) line1 w).ctx line2
          (handle Exec shell (some c) line1 w).world).ctx = p := by
  have hfirst : handle Exec shell (some c) line1 w =
      { ctx := some (Ctx.withValue c (Key.str "shell.prompt") (Any.str p)),
        err := e1, world := w1 } := by
    rw [handle_of_tokens Exec shell (some c) line1 w tok1 rest1 htok1, hcmd1]
    exact hexec1
  rw [hfirst]
  refine ⟨rfl, ?_⟩
  have hp : GetPrompt (some (Ctx.withValue c (Key.str "shell.prompt") (Any.str p))) = p := by
    simp [GetPrompt, Ctx.Value]
  show GetPrompt (handle Exec shell
    (some (Ctx.withValue c (Key.str "shell.prompt") (Any.str p))) line2 w1).ctx = p
  cases htoks : FindAllString reCmd (TrimSpace line2) with
  | nil =>
    rw [handle_of_blank Exec shell _ line2 w1 ((FindAllString_eq_nil_iff line2).mp htoks)]
    exact hp
  | cons tok rest =>
    rw [handle_of_tokens Exec shell _ line2 w1 tok rest htoks]
    cases hl : shell.commands.lookup tok with
    | none => exact hp
    | some cmd =>
      show GetPrompt (Exec cmd _ (tok :: rest) w1).ctx = p
      rw [hkeep tok rest cmd htoks hl]
      exact hp

/-- C7, witness: after "setprompt $\n", the lines "echo hi\n", "\n" and
"nosuch\n" all leave a context whose prompt is "$". -/
theorem prompt_binding_survives_next_dispatch_witness :
    GetPrompt (some mainCtx) = "/>"
      ∧ GetPrompt (handle recordExec sampleShell
          (handle recordExec sampleShell (some mainCtx) "setprompt $\n" []).ctx "echo hi\n"
          (handle recordExec sampleShell (some mainCtx) "setprompt $\n" []).world).ctx = "$"
      ∧ GetPrompt (handle recordExec sampleShell
          (handle recordExec sampleShell (some mainCtx) "setprompt $\n" []).ctx "\n"
          (handle recordExec sampleShell (some mainCtx) "setprompt $\n" []).world).ctx = "$"
      ∧ GetPrompt (handle recordExec sampleShell
          (handle recordExec sampleShell (some mainCtx) "setprompt $\n" []).ctx "nosuch\n"
          (handle recordExec sampleShell (some mainCtx) "setprompt $\n" []).world).ctx = "$" :=
  ⟨by decide,
    (prompt_binding_survives_next_dispatch recordExec sampleShell mainCtx "setprompt $\n"
      "echo hi\n" [] [(Command.mk 0, ["setprompt", "$"])] "$" "setprompt" ["$"] (Command.mk 0)
      none (by decide) (by decide) (by decide)
      (by
        intro tok rest cmd htok hcmd
        have h : FindAllString reCmd (TrimSpace "echo hi\n") = ["echo", "hi"] := by decide
        rw [h] at htok
        injection htok with h1 h2
        subst h1
        have h3 : sampleShell.commands.lookup "echo" = some (Command.mk 1) := by decide
        rw [h3] at hcmd
        injection hcmd with h4
        subst h4 h2
        decide)).2,
    (prompt_binding_survives_next_dispatch recordExec sampleShell mainCtx "setprompt $\n"
      "\n" [] [(Command.mk 0, ["setprompt", "$"])] "$" "setprompt" ["$"] (Command.mk 0)
      none (by decide) (by decide) (by decide)
      (by
        intro tok rest cmd htok
        have h : FindAllString reCmd (TrimSpace "\n") = [] := by decide
        rw [h] at htok
        cases htok)).2,
    (prompt_binding_survives_next_dispatch recordExec sampleShell mainCtx "setprompt $\n"
      "nosuch\n" [] [(Command.mk 0, ["setprompt", "$"])] "$" "setprompt" ["$"] (Command.mk 0)
      none (by decide) (by decide) (by decide)
      (by
        intro tok rest cmd htok hcmd
        have h : FindAllString reCmd (TrimSpace "nosuch\n") = ["nosuch"] := by decide
        rw [h] at htok
        injection htok with h1 h2
        subst h1
        have h3 : sampleShell.commands.lookup "nosuch" = none := by decide
        rw [h3] at hcmd
        cases hcmd)).2⟩

/-- C8: the shell loop of `main`.  For every registry, every command
implementation and every sequence of successfully read lines followed by a
read fault, `Init` succeeds and stores a context, the loop returns, and its
context and world after the `n` lines are the left fold of `handle` over the
lines starting from the context stored by `Init` (errors returned by `handle`
do not stop the fold); the loop wrote `n + 1` prompts, the `k`-th rendered
from the context returned by the dispatch of the first `k` lines; and the last
thing it wrote is the read fault. -/
theorem main_loop_is_fold_of_handle {σ : Type} (registry : CommandMap) (Exec : ExecFn σ)
    (fault : GoError) (lines : List String) (w : σ) :
    ∃ shell final,
      Init registry New (some mainCtx) = Except.ok (shell, none)
        ∧ main registry Exec fault lines w = Except.ok final
        ∧ (final.loopCtx, final.world) = dispatchAll Exec shell lines (shell.ctx, w)
        ∧ prompts final.out = (List.range (lines.length + 1)).map (fun k =>
            GetPrompt (dispatchAll Exec shell (lines.take k) (shell.ctx, w)).1)
        ∧ final.out.getLast? = some (Event.readFault fault)
        ∧ (∀ (line : String) (rest : List String) (st : LoopState σ),
            shellLoop Exec shell fault (line :: rest) st =
              shellLoop Exec shell fault rest
                { loopCtx := (handle Exec shell st.loopCtx line st.world).ctx,
                  world := (handle Exec shell st.loopCtx line st.world).world,
                  out := st.out ++ Event.prompt (GetPrompt st.loopCtx) ::
                    ((handle Exec shell st.loopCtx line st.world).err.map
                      Event.handleErr).toList }) := by
  obtain ⟨shell, hinit, _, _⟩ := Init_main registry
  have hspec := shellLoop_spec Exec shell fault lines
    { loopCtx := shell.ctx, world := w, out := [] }
  refine ⟨shell, _, hinit, ?_, hspec.1, ?_, hspec.2.2, ?_⟩
  · simp only [main, hinit]
  · simpa [prompts] using hspec.2.1
  · intro line rest st
    simp only [shellLoop]
    cases (handle Exec shell st.loopCtx line st.world).err <;> simp

/-- C8, example: the first line fails (command not found), the loop goes on;
the second line changes the prompt, and the prompts written are "/>", "/>",
">>", ">>"; both commands were called, in order. -/
theorem main_loop_example :
    (main sampleShell.commands recordExec (errorsNew "EOF")
        ["nosuch\n", "setprompt >>\n", "echo a\n"] []).toOption.map
        (fun st => (prompts st.out, st.world, st.out.length))
      = some (["/>", "/>", ">>", ">>"],
          [(Command.mk 0, ["setprompt", ">>"]), (Command.mk 1, ["echo", "a"])], 6) := by
  decide

/-- C9: command selection depends only on the first token and is by exact
string equality.  In a command table with distinct keys, for a line whose
first token is `tok`: an entry whose name is identical to `tok` is the one
called, with the whole token vector (later tokens are arguments only); and
when no entry has a name identical to `tok`, the outcome is command-not-found
and no command is called, whatever the later tokens are. -/
theorem handle_selects_by_exact_first_token {σ : Type} (Exec : ExecFn σ) (shell : Goshell)
    (ctx : Context) (cmdLine : String) (w : σ) (tok : String) (rest : List String)
    (htok : FindAllString reCmd (TrimSpace cmdLine) = tok :: rest)
    (hkeys : (shell.commands.map Prod.fst).Nodup) :
    (∀ e ∈ shell.commands, e.1 = tok →
        handle Exec shell ctx cmdLine w = Exec e.2 ctx (tok :: rest) w)
      ∧ ((∀ e ∈ shell.commands, e.1 ≠ tok) →
        handle Exec shell ctx cmdLine w =
          { ctx := ctx, err := some (errorsNew ("command not found: " ++ tok)), world := w }) := by
  have hlookup_some : ∀ (m : CommandMap), (m.map Prod.fst).Nodup →
      ∀ e ∈ m, m.lookup e.1 = some e.2 := by
    intro m
    induction m with
    | nil => intro _ e he; cases he
    | cons a t ih =>
      intro hnd e he
      rw [List.map_cons, List.nodup_cons] at hnd
      rcases List.mem_cons.mp he with h | h
      · subst h
        simp [List.lookup]
      · have hne : e.1 ≠ a.1 := by
          intro heq
          exact hnd.1 (heq ▸ List.mem_map_of_mem Prod.fst h)
        have hbeq : (e.1 == a.1) = false := by simpa using hne
        obtain ⟨a1, a2⟩ := a
        simp only [List.lookup, hbeq]
        exact ih hnd.2 e h
  have hlookup_none : ∀ (m : CommandMap), (∀ e ∈ m, e.1 ≠ tok) → m.lookup tok = none := by
    intro m
    induction m with
    | nil => intro _; rfl
    | cons a t ih =>
      intro h
      have hne : tok ≠ a.1 := fun heq => h a (List.mem_cons_self a t) heq.symm
      have hbeq : (tok == a.1) = false := by simpa using hne
      obtain ⟨a1, a2⟩ := a
      simp only [List.lookup, hbeq]
      exact ih (fun e he => h e (List.mem_cons_of_mem _ he))
  refine ⟨fun e he hname => ?_, fun hnone => ?_⟩
  · have h := hlookup_some shell.commands hkeys e he
    rw [hname] at h
    rw [handle_of_tokens Exec shell ctx cmdLine w tok rest htok, h]
  · rw [handle_of_tokens Exec shell ctx cmdLine w tok rest htok,
      hlookup_none shell.commands hnone]

/-- C9, witness: with `setprompt`, `echo` and `help` registered, "echo help"
calls `echo` only, with "help" as an argument; "ECHO help", "ech help",
"echoo help" and "nosuch echo" give command-not-found and call nothing. -/
theorem handle_selects_by_exact_first_token_witness :
    handle recordExec sampleShell (some mainCtx) "echo help\n" []
        = { ctx := some mainCtx, err := none, world := [(Command.mk 1, ["echo", "help"])] }
      ∧ handle recordExec sampleShell (some mainCtx) "ECHO help\n" []
        = { ctx := some mainCtx, err := some (errorsNew "command not found: ECHO"),
            world := [] }
      ∧ handle recordExec sampleShell (some mainCtx) "ech help\n" []
        = { ctx := some mainCtx, err := some (errorsNew "command not found: ech"),
            world := [] }
      ∧ handle recordExec sampleShell (some mainCtx) "echoo help\n" []
        = { ctx := some mainCtx, err := some (errorsNew "command not found: echoo"),
            world := [] }
      ∧ handle recordExec sampleShell (some mainCtx) "nosuch echo\n" []
        = { ctx := some mainCtx, err := some (errorsNew "command not found: nosuch"),
            world := [] } :=
  ⟨(handle_selects_by_exact_first_token recordExec sampleShell (some mainCtx) "echo help\n" []
      "echo" ["help"] (by decide) (by decide)).1 ("echo", Command.mk 1) (by decide) rfl,
    (handle_selects_by_exact_first_token recordExec sampleShell (some mainCtx) "ECHO help\n" []
      "ECHO" ["help"] (by decide) (by decide)).2 (by decide),
    (handle_selects_by_exact_first_token recordExec sampleShell (some mainCtx) "ech help\n" []
      "ech" ["help"] (by decide) (by decide)).2 (by decide),
    (handle_selects_by_exact_first_token recordExec sampleShell (some mainCtx) "echoo help\n" []
      "echoo" ["help"] (by decide) (by decide)).2 (by decide),
    (handle_selects_by_exact_first_token recordExec sampleShell (some mainCtx) "nosuch echo\n" []
      "nosuch" ["echo"] (by decide) (by decide)).2 (by decide)⟩

/-- C10: the parse-error branch of `handle` is unreachable.  Every line whose
trimmed form is non-empty has at least one token and its first token is
non-empty; so every call of `handle` ends in the blank-line branch, in the
command-not-found branch or in the call of `Exec`, and an error "unable to
parse command line: ..." can only come out of `handle` if the called command
itself returned it. -/
theorem handle_parse_error_unreachable :
    (∀ cmdLine : String, TrimSpace cmdLine ≠ "" →
        ∃ tok rest, FindAllString reCmd (TrimSpace cmdLine) = tok :: rest ∧ tok ≠ "")
      ∧ (∀ (σ : Type) (Exec : ExecFn σ) (shell : Goshell) (ctx : Context) (cmdLine : String)
          (w : σ),
          (TrimSpace cmdLine = ""
              ∧ handle Exec shell ctx cmdLine w = { ctx := ctx, err := none, world := w })
            ∨ (∃ tok rest, FindAllString reCmd (TrimSpace cmdLine) = tok :: rest
              ∧ shell.commands.lookup tok = none
              ∧ handle Exec shell ctx cmdLine w =
                { ctx := ctx, err := some (errorsNew ("command not found: " ++ tok)),
                  world := w })
            ∨ (∃ tok rest cmd, FindAllString reCmd (TrimSpace cmdLine) = tok :: rest
              ∧ shell.commands.lookup tok = some cmd
              ∧ handle Exec shell ctx cmdLine w = Exec cmd ctx (tok :: rest) w))
      ∧ (∀ (σ : Type) (Exec : ExecFn σ) (shell : Goshell) (ctx : Context) (cmdLine : String)
          (w : σ) (text : String),
          (handle Exec shell ctx cmdLine w).err
              = some (errorsNew ("unable to parse command line: " ++ text)) →
            ∃ cmd args, (Exec cmd ctx args w).err
              = some (errorsNew ("unable to parse command line: " ++ text))) := by
  have hcases : ∀ (σ : Type) (Exec : ExecFn σ) (shell : Goshell) (ctx : Context)
      (cmdLine : String) (w : σ),
      (TrimSpace cmdLine = ""
          ∧ handle Exec shell ctx cmdLine w = { ctx := ctx, err := none, world := w })
        ∨ (∃ tok rest, FindAllString reCmd (TrimSpace cmdLine) = tok :: rest
          ∧ shell.commands.lookup tok = none
          ∧ handle Exec shell ctx cmdLine w =
            { ctx := ctx, err := some (errorsNew ("command not found: " ++ tok)),
              world := w })
        ∨ (∃ tok rest cmd, FindAllString reCmd (TrimSpace cmdLine) = tok :: rest
          ∧ shell.commands.lookup tok = some cmd
          ∧ handle Exec shell ctx cmdLine w = Exec cmd ctx (tok :: rest) w) := by
    intro σ Exec shell ctx cmdLine w
    by_cases hb : TrimSpace cmdLine = ""
    · exact Or.inl ⟨hb, handle_of_blank Exec shell ctx cmdLine w hb⟩
    · obtain ⟨tok, rest, htok, _⟩ := FindAllString_TrimSpace cmdLine hb
      have h := handle_of_tokens Exec shell ctx cmdLine w tok rest htok
      cases hl : shell.commands.lookup tok with
      | none =>
        rw [hl] at h
        exact Or.inr (Or.inl ⟨tok, rest, htok, hl, h⟩)
      | some cmd =>
        rw [hl] at h
        exact Or.inr (Or.inr ⟨tok, rest, cmd, htok, hl, h⟩)
  refine ⟨FindAllString_TrimSpace, hcases, ?_⟩
  intro σ Exec shell ctx cmdLine w text herr
  rcases hcases σ Exec shell ctx cmdLine w with ⟨_, h⟩ | ⟨tok, rest, _, _, h⟩ |
    ⟨tok, rest, cmd, _, _, h⟩
  · rw [h] at herr
    cases herr
  · rw [h] at herr
    exfalso
    have h1 : ("command not found: " ++ tok).data
        = ("unable to parse command line: " ++ text).data := by
      have h2 := Option.some.inj herr
      exact congrArg String.data (congrArg GoError.msg h2)
    simp only [String.data_append] at h1
    have h3 := congrArg List.head? h1
    simp at h3
  · exact ⟨cmd, tok :: rest, h ▸ herr⟩

end Smallshell
